import Mathlib

/-!
# User CRUD service: email validation and store operations

A shallow embedding of `pkg/validators/is_email.go` and `pkg/user/user.go`.

* The regular expression of `IsEmail` is kept as a syntax tree (`emailRegex`) and run by a
  derivative matcher (`MatchString`) that searches the text for a match, honouring the
  `^` and `$` assertions the way Go's `regexp` package does without flags.
* The DynamoDB client the service is handed (`dynamodbiface.DynamoDBAPI`) is an in-memory
  table with one switch per call that makes the call fail, and a log of the calls made.
* `json.Unmarshal` of the request body is a parameter of the operations that parse a body.
-/

namespace GoServerless

/-! ## Regular expressions (the fragment of Go's `regexp/syntax` the pattern uses) -/

/-- Syntax tree of a regular expression, after the operators of Go's `regexp/syntax`. -/
inductive Regex where
  | noMatch
  | emptyMatch
  | beginText
  | endText
  | anyChar
  | charClass (ranges : List (Char × Char))
  | concat (r₁ r₂ : Regex)
  | alternate (r₁ r₂ : Regex)
  | star (r : Regex)
  deriving Repr

namespace Regex

/-- Membership of a character in a class given by inclusive ranges of code points. -/
def inClass (ranges : List (Char × Char)) (c : Char) : Bool :=
  ranges.any fun p => decide (p.1.toNat ≤ c.toNat) && decide (c.toNat ≤ p.2.toNat)

/-- The class of a single literal character. -/
def literal (c : Char) : Regex := charClass [(c, c)]

/-- One or more repetitions: `x+`. -/
def plus (r : Regex) : Regex := concat r (star r)

/-- At least `n` repetitions: `x{n,}`. -/
def repeatMin : Nat → Regex → Regex
  | 0, r => star r
  | n + 1, r => concat r (repeatMin n r)

/-- Whether the expression matches the empty string at a position; `bot` says the position
is the beginning of the text and `eot` that it is the end of the text. -/
def nullable (bot eot : Bool) : Regex → Bool
  | noMatch => false
  | emptyMatch => true
  | beginText => bot
  | endText => eot
  | anyChar => false
  | charClass _ => false
  | concat r₁ r₂ => nullable bot eot r₁ && nullable bot eot r₂
  | alternate r₁ r₂ => nullable bot eot r₁ || nullable bot eot r₂
  | star _ => true

/-- Derivative of the expression by the character `c` read at a position; `bot` says the
position is the beginning of the text. The result is to be matched after `c`. -/
def deriv (bot : Bool) (c : Char) : Regex → Regex
  | noMatch => noMatch
  | emptyMatch => noMatch
  | beginText => noMatch
  | endText => noMatch
  | anyChar => emptyMatch
  | charClass rs => if inClass rs c then emptyMatch else noMatch
  | concat r₁ r₂ =>
    alternate (concat (deriv bot c r₁) r₂)
      (if nullable bot false r₁ then deriv bot c r₂ else noMatch)
  | alternate r₁ r₂ => alternate (deriv bot c r₁) (deriv bot c r₂)
  | star r => concat (deriv bot c r) (star r)

/-- Whether the expression matches the whole of the remaining text; `bot` says no character
of the text has been read yet. -/
def matchFrom (bot : Bool) (r : Regex) : List Char → Bool
  | [] => nullable bot true r
  | c :: cs => matchFrom false (deriv bot c r) cs

/-- Model of `(*regexp.Regexp).MatchString`: whether the text contains any match of the
expression. A match may start and end anywhere, so the text as a whole is matched against
the expression with any characters before and after it. -/
def MatchString (re : Regex) (s : String) : Bool :=
  matchFrom true (concat (star anyChar) (concat re (star anyChar))) s.data

/-- Meaning of an expression: `Matches r pre mid post` says `r` matches the part `mid` of
the text `pre ++ mid ++ post`. -/
inductive Matches : Regex → List Char → List Char → List Char → Prop
  | emptyMatch {pre mid post} (hm : mid = []) : Matches emptyMatch pre mid post
  | beginText {pre mid post} (hp : pre = []) (hm : mid = []) : Matches beginText pre mid post
  | endText {pre mid post} (hm : mid = []) (hq : post = []) : Matches endText pre mid post
  | anyChar {pre mid post} (c : Char) (hm : mid = [c]) : Matches anyChar pre mid post
  | charClass {rs pre mid post} (c : Char) (hm : mid = [c]) (hc : inClass rs c = true) :
      Matches (charClass rs) pre mid post
  | concat {r₁ r₂ pre mid post} (m₁ m₂ : List Char) (hm : mid = m₁ ++ m₂)
      (h₁ : Matches r₁ pre m₁ (m₂ ++ post)) (h₂ : Matches r₂ (pre ++ m₁) m₂ post) :
      Matches (concat r₁ r₂) pre mid post
  | altLeft {r₁ r₂ pre mid post} (h : Matches r₁ pre mid post) :
      Matches (alternate r₁ r₂) pre mid post
  | altRight {r₁ r₂ pre mid post} (h : Matches r₂ pre mid post) :
      Matches (alternate r₁ r₂) pre mid post
  | starNil {r pre mid post} (hm : mid = []) : Matches (star r) pre mid post
  | starCons {r pre mid post} (m₁ m₂ : List Char) (hm : mid = m₁ ++ m₂)
      (h₁ : Matches r pre m₁ (m₂ ++ post)) (h₂ : Matches (star r) (pre ++ m₁) m₂ post) :
      Matches (star r) pre mid post

end Regex

/-! ## `pkg/validators` -/

/-- Characters of the local part of the pattern, `[a-zA-Z0-9._%+-]`. -/
def localRanges : List (Char × Char) :=
  [('a', 'z'), ('A', 'Z'), ('0', '9'), ('.', '.'), ('_', '_'), ('%', '%'), ('+', '+'),
   ('-', '-')]

/-- Characters of the domain part of the pattern, `[a-zA-Z0-9.-]`. -/
def domainRanges : List (Char × Char) :=
  [('a', 'z'), ('A', 'Z'), ('0', '9'), ('.', '.'), ('-', '-')]

/-- Characters of the last part of the pattern, `[a-zA-Z]`. -/
def tldRanges : List (Char × Char) := [('a', 'z'), ('A', 'Z')]

open Regex in
/-- The pattern of `IsEmail`, `^[a-zA-Z0-9._%+-]+@[a-zA-Z0-9.-]+\.[a-zA-Z]{2,}$`. -/
def emailRegex : Regex :=
  concat beginText
   (concat (plus (charClass localRanges))
    (concat (literal '@')
     (concat (plus (charClass domainRanges))
      (concat (literal '.')
       (concat (repeatMin 2 (charClass tldRanges))
        endText)))))

/-- IsEmail is a function that checks if the given string is a valid email address. The
text is a sequence of characters (a Go string that is valid UTF-8). -/
def IsEmail (email : String) : Bool :=
  Regex.MatchString emailRegex email

/-! ## The DynamoDB client handed to the service -/

/-- The attribute values of `dynamodb.AttributeValue` that occur for a user item (a string
and `NULL`), and a boolean, as a value a stored item may hold that does not decode into a
string field. -/
inductive AttributeValue where
  | S (s : String)
  | BOOL (b : Bool)
  | NULL
  deriving DecidableEq, Repr

/-- An item, `map[string]*dynamodb.AttributeValue`, as an association list. -/
abbrev Item := List (String × AttributeValue)

/-- The key of an item in the user table: its `email` attribute. -/
def keyOf (item : Item) : Option AttributeValue := item.lookup "email"

/-- Fields of `dynamodb.GetItemInput` the service sets. -/
structure GetItemInput where
  Key : Item
  TableName : String
  deriving DecidableEq, Repr

/-- Fields of `dynamodb.PutItemInput` the service sets. -/
structure PutItemInput where
  Item : Item
  TableName : String
  deriving DecidableEq, Repr

/-- Fields of `dynamodb.DeleteItemInput` the service sets. -/
structure DeleteItemInput where
  Key : Item
  TableName : String
  deriving DecidableEq, Repr

/-- Fields of `dynamodb.ScanInput` the service sets. -/
structure ScanInput where
  TableName : String
  deriving DecidableEq, Repr

/-- A call made on the client. -/
inductive Call where
  | GetItem (input : GetItemInput)
  | PutItem (input : PutItemInput)
  | DeleteItem (input : DeleteItemInput)
  | Scan (input : ScanInput)
  deriving DecidableEq, Repr

/-- An in-memory `dynamodbiface.DynamoDBAPI`: the items of the one table the service uses
(keyed by `email`), for each kind of call whether it fails, and the calls made so far. -/
structure DynamoDBAPI where
  items : List Item
  getItemFails : Bool
  putItemFails : Bool
  deleteItemFails : Bool
  scanFails : Bool
  calls : List Call
  deriving DecidableEq, Repr

namespace DynamoDBAPI

/-- Lookup by key: the stored item with the key of the request, if there is one. A failing
call returns an error. -/
def GetItem (c : DynamoDBAPI) (input : GetItemInput) :
    Except String (Option Item) × DynamoDBAPI :=
  let c' := { c with calls := c.calls ++ [Call.GetItem input] }
  if c.getItemFails then (.error "GetItem failed", c')
  else (.ok (c.items.find? fun it => decide (keyOf it = keyOf input.Key)), c')

/-- Write of an item: it replaces the stored item of the same key. A failing call writes
nothing. -/
def PutItem (c : DynamoDBAPI) (input : PutItemInput) : Except String Unit × DynamoDBAPI :=
  let c' := { c with calls := c.calls ++ [Call.PutItem input] }
  if c.putItemFails then (.error "PutItem failed", c')
  else (.ok (),
    { c' with items :=
        input.Item :: c.items.filter fun it => decide (keyOf it ≠ keyOf input.Item) })

/-- Removal by key; a key that is absent is no failure. A failing call removes nothing. -/
def DeleteItem (c : DynamoDBAPI) (input : DeleteItemInput) :
    Except String Unit × DynamoDBAPI :=
  let c' := { c with calls := c.calls ++ [Call.DeleteItem input] }
  if c.deleteItemFails then (.error "DeleteItem failed", c')
  else (.ok (),
    { c' with items := c.items.filter fun it => decide (keyOf it ≠ keyOf input.Key) })

/-- All items of the table. A failing call returns an error. -/
def Scan (c : DynamoDBAPI) (input : ScanInput) : Except String (List Item) × DynamoDBAPI :=
  let c' := { c with calls := c.calls ++ [Call.Scan input] }
  if c.scanFails then (.error "Scan failed", c') else (.ok c.items, c')

end DynamoDBAPI

/-! ## `dynamodbattribute` for the `User` struct -/

/-- User is a struct that represents a user in the database. -/
structure User where
  Email : String
  FirstName : String
  LastName : String
  deriving DecidableEq, Repr

/-- Encoding of a string field: the encoder writes an empty string as `NULL`. -/
def encodeString (s : String) : AttributeValue :=
  if s = "" then AttributeValue.NULL else AttributeValue.S s

/-- Decoding of an attribute value into a string field: `NULL` sets the zero value, a
string is stored, and a boolean is an unmarshal type error. -/
def decodeString : AttributeValue → Except String String
  | AttributeValue.NULL => .ok ""
  | AttributeValue.S s => .ok s
  | AttributeValue.BOOL _ => .error "cannot unmarshal bool into Go value of type string"

/-- The fields of `User`. -/
inductive Field where
  | Email
  | FirstName
  | LastName
  deriving DecidableEq, Repr

/-- The fields of `User` under the names the decoder knows them by, their `json` tags, in
the order of the struct. -/
def userFields : List (String × Field) :=
  [("email", Field.Email), ("first_name", Field.FirstName), ("last_name", Field.LastName)]

/-- The representative of a character under simple case folding, for the characters that
fold with an ASCII character: a capital letter folds to its small letter, the long s
(U+017F) to `s` and the Kelvin sign (U+212A) to `k`. -/
def foldChar (c : Char) : Char :=
  if 65 ≤ c.toNat ∧ c.toNat ≤ 90 then Char.ofNat (c.toNat + 32)
  else if c.toNat = 0x17F then 's'
  else if c.toNat = 0x212A then 'k'
  else c

/-- Model of `strings.EqualFold` with an ASCII first argument, as the field names are:
equality under simple case folding. -/
def EqualFold (s t : String) : Bool :=
  decide (s.data.map foldChar = t.data.map foldChar)

/-- The loop of the decoder's `fieldByName`: a field of that exact name is returned at
once, and the first field whose name is equal under case folding is kept for the end. -/
def fieldByNameLoop (name : String) : List (String × Field) → Option Field → Option Field
  | [], foldField => foldField
  | f :: fs, foldField =>
    if f.1 = name then some f.2
    else if foldField.isNone && EqualFold f.1 name then fieldByNameLoop name fs (some f.2)
    else fieldByNameLoop name fs foldField

/-- The field an attribute name stands for: the field of that exact name, or else the first
field whose name matches it without regard to case. -/
def fieldByName (name : String) : Option Field :=
  fieldByNameLoop name userFields none

/-- Assignment of a decoded string to a field. -/
def setField (u : User) : Field → String → User
  | Field.Email, s => { u with Email := s }
  | Field.FirstName, s => { u with FirstName := s }
  | Field.LastName, s => { u with LastName := s }

/-- The decoder's loop over the attributes of an item, in the order of the list (the order
in which the map is ranged over): an attribute that names a field is decoded into it, any
other attribute is skipped, and the first decoding error ends the loop. -/
def decodeMap : Item → User → Except String User
  | [], u => .ok u
  | (k, av) :: rest, u =>
    match fieldByName k with
    | none => decodeMap rest u
    | some f =>
      match decodeString av with
      | .error e => .error e
      | .ok s => decodeMap rest (setField u f s)

/-- The item of a user: one attribute per field, named by the field's `json` tag. -/
def userItem (u : User) : Item :=
  [("email", encodeString u.Email), ("first_name", encodeString u.FirstName),
   ("last_name", encodeString u.LastName)]

/-- Model of `dynamodbattribute.MarshalMap` at `User`; a struct of strings always encodes. -/
def MarshalMap (u : User) : Except String Item :=
  .ok (userItem u)

/-- Model of `dynamodbattribute.UnmarshalMap` into a fresh `User`; the item is `none` for
the nil map of a lookup that found nothing, which leaves every field at its zero value. -/
def UnmarshalMap (item : Option Item) : Except String User :=
  match item with
  | none => .ok ⟨"", "", ""⟩
  | some m => decodeMap m ⟨"", "", ""⟩

/-- Model of `dynamodbattribute.UnmarshalListOfMaps` into a slice of `User`. -/
def UnmarshalListOfMaps (items : List Item) : Except String (List User) :=
  items.mapM fun m => UnmarshalMap (some m)

/-! ## `pkg/user` -/

deriving instance DecidableEq for Except

/-- Fields of `events.APIGatewayProxyRequest` the service reads. -/
structure APIGatewayProxyRequest where
  Body : String
  QueryStringParameters : List (String × String)
  deriving DecidableEq, Repr

def ErrorFailedToGetUser : String := "failed to get user"
def ErrorInvalidUserData : String := "invalid user data"
def FailedToUnmarshallRecord : String := "failed to unmarshall record"
def InvalidEmail : String := "invalid email"
def CouldNotMarshall : String := "could not marshall"
def CouldNotDelete : String := "could not delete"
def CouldNotPut : String := "could not put"
def UserAlreadyExists : String := "user already exists"
def UserDoesNotExist : String := "user does not exist"

/-- GetUser is a function that retrieves a user from the database. The result is the pair
`(*User, error)` as an `Except`, with the client after the call. -/
def GetUser (email : String) (tableName : String) (dynaClient : DynamoDBAPI) :
    Except String User × DynamoDBAPI :=
  let input : GetItemInput :=
    { Key := [("email", AttributeValue.S email)], TableName := tableName }
  match dynaClient.GetItem input with
  | (.error _, dynaClient) => (.error ErrorFailedToGetUser, dynaClient)
  | (.ok result, dynaClient) =>
    match UnmarshalMap result with
    | .error _ => (.error "failed to unmarshal", dynaClient)
    | .ok item => (.ok item, dynaClient)

/-- The test `currentUser != nil && len(currentUser.Email) > 0` on the first result of
`GetUser`, whose error is dropped by the callers. -/
def found (currentUser : Except String User) : Bool :=
  match currentUser with
  | .error _ => false
  | .ok u => decide (0 < u.Email.utf8ByteSize)

/-- CreateUser is a function that creates a new user in the database. `jsonUnmarshal` is
`json.Unmarshal` into a `User`. -/
def CreateUser (jsonUnmarshal : String → Except String User) (req : APIGatewayProxyRequest)
    (tableName : String) (dynaClient : DynamoDBAPI) : Except String User × DynamoDBAPI :=
  match jsonUnmarshal req.Body with
  | .error _ => (.error ErrorInvalidUserData, dynaClient)
  | .ok user =>
    if !IsEmail user.Email then (.error InvalidEmail, dynaClient)
    else
      match GetUser user.Email tableName dynaClient with
      | (currentUser, dynaClient) =>
        if found currentUser then (.error UserAlreadyExists, dynaClient)
        else
          match MarshalMap user with
          | .error _ => (.error CouldNotMarshall, dynaClient)
          | .ok av =>
            match dynaClient.PutItem { Item := av, TableName := tableName } with
            | (.error _, dynaClient) => (.error CouldNotPut, dynaClient)
            | (.ok _, dynaClient) => (.ok user, dynaClient)

/-- GetUsers is a function that retrieves users from the database. -/
def GetUsers (tableName : String) (dynaClient : DynamoDBAPI) :
    Except String (List User) × DynamoDBAPI :=
  match dynaClient.Scan { TableName := tableName } with
  | (.error _, dynaClient) => (.error "failed to get users", dynaClient)
  | (.ok result, dynaClient) =>
    match UnmarshalListOfMaps result with
    | .error _ => (.error CouldNotMarshall, dynaClient)
    | .ok users => (.ok users, dynaClient)

/-- UpdateUser is a function that updates a user in the database. `jsonUnmarshal` is
`json.Unmarshal` into a `User`. -/
def UpdateUser (jsonUnmarshal : String → Except String User) (req : APIGatewayProxyRequest)
    (tableName : String) (dynaClient : DynamoDBAPI) : Except String User × DynamoDBAPI :=
  match jsonUnmarshal req.Body with
  | .error _ => (.error ErrorInvalidUserData, dynaClient)
  | .ok u =>
    match GetUser u.Email tableName dynaClient with
    | (currentUser, dynaClient) =>
      if found currentUser then (.error UserDoesNotExist, dynaClient)
      else
        match MarshalMap u with
        | .error _ => (.error CouldNotMarshall, dynaClient)
        | .ok av =>
          match dynaClient.PutItem { Item := av, TableName := tableName } with
          | (.error _, dynaClient) => (.error CouldNotPut, dynaClient)
          | (.ok _, dynaClient) => (.ok u, dynaClient)

/-- DeleteUser is a function that deletes a user from the database. The result is the
`error` (`none` for nil), with the client after the call. -/
def DeleteUser (req : APIGatewayProxyRequest) (tableName : String)
    (dynaClient : DynamoDBAPI) : Option String × DynamoDBAPI :=
  let email := (req.QueryStringParameters.lookup "email").getD ""
  let input : DeleteItemInput :=
    { Key := [("email", AttributeValue.S email)], TableName := tableName }
  match dynaClient.DeleteItem input with
  | (.error _, dynaClient) => (some CouldNotDelete, dynaClient)
  | (.ok _, dynaClient) => (none, dynaClient)

/-! ## The words of the specification -/

/-- An ASCII letter. -/
def isAsciiLetter (c : Char) : Prop := ('a' ≤ c ∧ c ≤ 'z') ∨ ('A' ≤ c ∧ c ≤ 'Z')

/-- An ASCII digit. -/
def isAsciiDigit (c : Char) : Prop := '0' ≤ c ∧ c ≤ '9'

/-- A character of the local part: a letter, a digit or one of `. _ % + -`. -/
def isLocalChar (c : Char) : Prop :=
  isAsciiLetter c ∨ isAsciiDigit c ∨ c = '.' ∨ c = '_' ∨ c = '%' ∨ c = '+' ∨ c = '-'

/-- A character of the domain: a letter, a digit or one of `. -`. -/
def isDomainChar (c : Char) : Prop :=
  isAsciiLetter c ∨ isAsciiDigit c ∨ c = '.' ∨ c = '-'

/-- The email syntax in the words of the specification: the string splits as
`local ++ "@" ++ domain ++ "." ++ tld`, with nothing before or after. -/
def EmailSyntax (s : String) : Prop :=
  ∃ loc dom tld : String, s = loc ++ "@" ++ dom ++ "." ++ tld ∧
    (loc ≠ "" ∧ ∀ c ∈ loc.toList, isLocalChar c) ∧
    (dom ≠ "" ∧ ∀ c ∈ dom.toList, isDomainChar c) ∧
    (2 ≤ tld.length ∧ ∀ c ∈ tld.toList, isAsciiLetter c)

/-- The item the table holds under the key `email`, if it holds one. -/
def DynamoDBAPI.storedItem (c : DynamoDBAPI) (email : String) : Option Item :=
  c.items.find? fun it => decide (keyOf it = some (AttributeValue.S email))

/-- The call `GetUser` logs: the lookup of `email` in `tableName`. -/
def getUserCall (email tableName : String) : Call :=
  Call.GetItem { Key := [("email", AttributeValue.S email)], TableName := tableName }

/-- The data-model invariant of the specification on a table: every item has a string
`email` attribute, which is its key, and that email passes `IsEmail`. -/
def emailsValid (c : DynamoDBAPI) : Bool :=
  c.items.all fun it =>
    match keyOf it with
    | some (AttributeValue.S e) => IsEmail e
    | _ => false

/-- A client with an empty table, no failing call and no call made. -/
def emptyClient : DynamoDBAPI :=
  { items := [], getItemFails := false, putItemFails := false, deleteItemFails := false,
    scanFails := false, calls := [] }

/-- A client whose table holds the user `x@y.com`, named `Old Name`. -/
def oneUserClient : DynamoDBAPI :=
  { emptyClient with
    items := [[("email", AttributeValue.S "x@y.com"), ("first_name", AttributeValue.S "Old"),
               ("last_name", AttributeValue.S "Name")]] }

/-- A stand-in for `json.Unmarshal` in the worked examples: the three bodies below decode as
`json.Unmarshal` decodes them into a `User` (a field that is absent keeps the empty string);
any other body is taken as malformed. -/
def sampleUnmarshal (body : String) : Except String User :=
  if body = "\x7b\"email\":\"x@y.com\",\"first_name\":\"\",\"last_name\":\"B\"\x7d" then
    .ok ⟨"x@y.com", "", "B"⟩
  else if body = "\x7b\"email\":\"bad\",\"first_name\":\"A\"\x7d" then
    .ok ⟨"bad", "A", ""⟩
  else if body = "\x7b\"first_name\":\"A\"\x7d" then
    .ok ⟨"", "A", ""⟩
  else .error "invalid character"

/-- Request with the body `{"email":"x@y.com","first_name":"","last_name":"B"}`. -/
def freshRequest : APIGatewayProxyRequest :=
  { Body := "\x7b\"email\":\"x@y.com\",\"first_name\":\"\",\"last_name\":\"B\"\x7d",
    QueryStringParameters := [] }

/-- Request with the body `{"email":"bad","first_name":"A"}`. -/
def badEmailRequest : APIGatewayProxyRequest :=
  { Body := "\x7b\"email\":\"bad\",\"first_name\":\"A\"\x7d", QueryStringParameters := [] }

/-- Request with the body `{"first_name":"A"}`, which has no email field. -/
def noEmailRequest : APIGatewayProxyRequest :=
  { Body := "\x7b\"first_name\":\"A\"\x7d", QueryStringParameters := [] }

/-- Request with the query parameter `email=x@y.com`. -/
def deleteRequest : APIGatewayProxyRequest :=
  { Body := "", QueryStringParameters := [("email", "x@y.com")] }

/-- The client `oneUserClient` with a lookup call that fails. -/
def failingLookupClient : DynamoDBAPI :=
  { oneUserClient with getItemFails := true }

/-- A client whose table holds under `x@y.com` an item with a boolean in the attribute
`FIRST_NAME`, which the decoder takes for the field `first_name`. -/
def undecodableClient : DynamoDBAPI :=
  { emptyClient with
    items := [[("email", AttributeValue.S "x@y.com"),
               ("FIRST_NAME", AttributeValue.BOOL true)]] }

/-! ## Correctness of the matcher -/

namespace Regex

theorem matches_concat_iff {r₁ r₂ : Regex} {pre mid post : List Char} :
    Matches (concat r₁ r₂) pre mid post ↔
      ∃ m₁ m₂, mid = m₁ ++ m₂ ∧ Matches r₁ pre m₁ (m₂ ++ post) ∧
        Matches r₂ (pre ++ m₁) m₂ post := by
  constructor
  · intro h
    cases h with
    | concat m₁ m₂ hm h₁ h₂ => exact ⟨m₁, m₂, hm, h₁, h₂⟩
  · rintro ⟨m₁, m₂, hm, h₁, h₂⟩
    exact Matches.concat m₁ m₂ hm h₁ h₂

theorem matches_alternate_iff {r₁ r₂ : Regex} {pre mid post : List Char} :
    Matches (alternate r₁ r₂) pre mid post ↔
      Matches r₁ pre mid post ∨ Matches r₂ pre mid post := by
  constructor
  · intro h
    cases h with
    | altLeft h => exact Or.inl h
    | altRight h => exact Or.inr h
  · rintro (h | h)
    · exact Matches.altLeft h
    · exact Matches.altRight h

theorem not_matches_noMatch {pre mid post : List Char} : ¬ Matches noMatch pre mid post := by
  intro h
  cases h

theorem matches_emptyMatch_iff {pre mid post : List Char} :
    Matches emptyMatch pre mid post ↔ mid = [] := by
  constructor
  · intro h
    cases h with
    | emptyMatch hm => exact hm
  · intro hm
    exact Matches.emptyMatch hm

theorem matches_charClass_iff {rs : List (Char × Char)} {pre mid post : List Char} :
    Matches (charClass rs) pre mid post ↔ ∃ c, mid = [c] ∧ inClass rs c = true := by
  constructor
  · intro h
    cases h with
    | charClass c hm hc => exact ⟨c, hm, hc⟩
  · rintro ⟨c, hm, hc⟩
    exact Matches.charClass c hm hc

theorem matches_anyChar_iff {pre mid post : List Char} :
    Matches anyChar pre mid post ↔ ∃ c, mid = [c] := by
  constructor
  · intro h
    cases h with
    | anyChar c hm => exact ⟨c, hm⟩
  · rintro ⟨c, hm⟩
    exact Matches.anyChar c hm

/-- The empty-match test agrees with the meaning of the expression. -/
theorem nullable_iff (r : Regex) (pre post : List Char) :
    nullable pre.isEmpty post.isEmpty r = true ↔ Matches r pre [] post := by
  induction r with
  | noMatch => simp [nullable, not_matches_noMatch]
  | emptyMatch => simp [nullable, matches_emptyMatch_iff]
  | beginText =>
    constructor
    · intro h
      exact Matches.beginText (List.isEmpty_iff.mp h) rfl
    · intro h
      cases h with
      | beginText hp hm => exact List.isEmpty_iff.mpr hp
  | endText =>
    constructor
    · intro h
      exact Matches.endText rfl (List.isEmpty_iff.mp h)
    · intro h
      cases h with
      | endText hm hq => exact List.isEmpty_iff.mpr hq
  | anyChar => simp [nullable, matches_anyChar_iff]
  | charClass rs => simp [nullable, matches_charClass_iff]
  | concat r₁ r₂ ih₁ ih₂ =>
    rw [matches_concat_iff]
    simp only [nullable, Bool.and_eq_true, ih₁, ih₂]
    constructor
    · rintro ⟨h₁, h₂⟩
      exact ⟨[], [], rfl, by simpa using h₁, by simpa using h₂⟩
    · rintro ⟨m₁, m₂, hm, h₁, h₂⟩
      have hm' := hm.symm
      rw [List.append_eq_nil] at hm'
      obtain ⟨rfl, rfl⟩ := hm'
      exact ⟨by simpa using h₁, by simpa using h₂⟩
  | alternate r₁ r₂ ih₁ ih₂ =>
    rw [matches_alternate_iff]
    simp only [nullable, Bool.or_eq_true, ih₁, ih₂]
  | star r _ =>
    simp only [nullable, true_iff]
    exact Matches.starNil rfl

/-- A non-empty match of `r*` begins with a non-empty match of `r`. -/
theorem matches_star_cons {r : Regex} {c : Char} :
    ∀ {pre mid post : List Char}, Matches (star r) pre (c :: mid) post →
      ∃ m₁ m₂, mid = m₁ ++ m₂ ∧ Matches r pre (c :: m₁) (m₂ ++ post) ∧
        Matches (star r) (pre ++ c :: m₁) m₂ post := by
  have key : ∀ (r' : Regex) (pre text post : List Char), Matches r' pre text post →
      ∀ mid, r' = star r → text = c :: mid →
      ∃ m₁ m₂, mid = m₁ ++ m₂ ∧ Matches r pre (c :: m₁) (m₂ ++ post) ∧
        Matches (star r) (pre ++ c :: m₁) m₂ post := by
    intro r' pre text post h
    induction h with
    | emptyMatch hm => intro mid hr; cases hr
    | beginText hp hm => intro mid hr; cases hr
    | endText hm hq => intro mid hr; cases hr
    | anyChar c hm => intro mid hr; cases hr
    | charClass c hm hc => intro mid hr; cases hr
    | concat m₁ m₂ hm h₁ h₂ _ _ => intro mid hr; cases hr
    | altLeft h _ => intro mid hr; cases hr
    | altRight h _ => intro mid hr; cases hr
    | starNil hm =>
      intro mid _ ht
      rw [hm] at ht
      cases ht
    | starCons m₁ m₂ hm h₁ h₂ _ ih₂ =>
      intro mid hr ht
      cases hr
      cases m₁ with
      | nil =>
        have hm₂ : m₂ = c :: mid := by simpa [ht] using hm.symm
        have := ih₂ mid rfl hm₂
        simpa using this
      | cons a m₁ =>
        rw [ht] at hm
        simp only [List.cons_append, List.cons.injEq] at hm
        obtain ⟨rfl, rfl⟩ := hm
        exact ⟨m₁, m₂, rfl, h₁, h₂⟩
  intro pre mid post h
  exact key _ _ _ _ h mid rfl rfl

/-- The derivative by `c` matches what the expression matches after reading `c`. -/
theorem deriv_iff (r : Regex) (c : Char) :
    ∀ (pre mid post : List Char),
      Matches (deriv pre.isEmpty c r) (pre ++ [c]) mid post ↔
        Matches r pre (c :: mid) post := by
  induction r with
  | noMatch =>
    intro pre mid post
    simp only [deriv, not_matches_noMatch]
  | emptyMatch =>
    intro pre mid post
    simp [deriv, not_matches_noMatch, matches_emptyMatch_iff]
  | beginText =>
    intro pre mid post
    simp only [deriv, not_matches_noMatch, false_iff]
    intro h
    cases h with
    | beginText hp hm => cases hm
  | endText =>
    intro pre mid post
    simp only [deriv, not_matches_noMatch, false_iff]
    intro h
    cases h with
    | endText hm hq => cases hm
  | anyChar =>
    intro pre mid post
    simp [deriv, matches_emptyMatch_iff, matches_anyChar_iff]
  | charClass rs =>
    intro pre mid post
    simp only [deriv, matches_charClass_iff]
    by_cases hc : inClass rs c = true
    · rw [if_pos hc, matches_emptyMatch_iff]
      constructor
      · rintro rfl
        exact ⟨c, rfl, hc⟩
      · rintro ⟨d, hd, _⟩
        simp only [List.cons.injEq] at hd
        exact hd.2
    · simp only [hc, Bool.false_eq_true, if_false, not_matches_noMatch, false_iff]
      rintro ⟨d, hd, hcd⟩
      simp only [List.cons.injEq] at hd
      rw [← hd.1] at hcd
      exact hc hcd
  | concat r₁ r₂ ih₁ ih₂ =>
    intro pre mid post
    simp only [deriv, matches_alternate_iff]
    constructor
    · rintro (h | h)
      · rw [matches_concat_iff] at h
        obtain ⟨m₁, m₂, hm, h₁, h₂⟩ := h
        rw [ih₁] at h₁
        refine Matches.concat (c :: m₁) m₂ (by simp [hm]) h₁ ?_
        simpa using h₂
      · by_cases hn : nullable pre.isEmpty false r₁ = true
        · rw [if_pos hn, ih₂] at h
          have hn' : Matches r₁ pre [] ((c :: mid) ++ post) := by
            rw [← nullable_iff]
            simpa using hn
          exact Matches.concat [] (c :: mid) rfl hn' (by simpa using h)
        · rw [if_neg hn] at h
          exact absurd h not_matches_noMatch
    · intro h
      rw [matches_concat_iff] at h
      obtain ⟨m₁, m₂, hm, h₁, h₂⟩ := h
      cases m₁ with
      | nil =>
        right
        have hm₂ : m₂ = c :: mid := by simpa using hm.symm
        subst hm₂
        have hn : nullable pre.isEmpty false r₁ = true := by
          have := (nullable_iff r₁ pre ((c :: mid) ++ post)).mpr h₁
          simpa using this
        rw [if_pos hn, ih₂]
        simpa using h₂
      | cons a m₁ =>
        left
        simp only [List.cons_append, List.cons.injEq] at hm
        obtain ⟨rfl, rfl⟩ := hm
        rw [matches_concat_iff]
        refine ⟨m₁, m₂, rfl, (ih₁ _ _ _).mpr h₁, ?_⟩
        simpa using h₂
  | alternate r₁ r₂ ih₁ ih₂ =>
    intro pre mid post
    simp only [deriv, matches_alternate_iff, ih₁, ih₂]
  | star r ih =>
    intro pre mid post
    simp only [deriv, matches_concat_iff]
    constructor
    · rintro ⟨m₁, m₂, hm, h₁, h₂⟩
      rw [ih] at h₁
      refine Matches.starCons (c :: m₁) m₂ (by simp [hm]) h₁ ?_
      simpa using h₂
    · intro h
      obtain ⟨m₁, m₂, hm, h₁, h₂⟩ := matches_star_cons h
      refine ⟨m₁, m₂, hm, (ih _ _ _).mpr h₁, ?_⟩
      simpa using h₂

/-- The matcher decides the meaning of the expression on the rest of the text. -/
theorem matchFrom_iff (mid : List Char) :
    ∀ (r : Regex) (pre : List Char),
      matchFrom pre.isEmpty r mid = true ↔ Matches r pre mid [] := by
  induction mid with
  | nil =>
    intro r pre
    simpa [matchFrom] using nullable_iff r pre []
  | cons c cs ih =>
    intro r pre
    have h := ih (deriv pre.isEmpty c r) (pre ++ [c])
    have he : (pre ++ [c]).isEmpty = false := by
      cases pre <;> rfl
    rw [he] at h
    rw [matchFrom, h, deriv_iff]

theorem matches_star_anyChar (pre mid post : List Char) :
    Matches (star anyChar) pre mid post := by
  induction mid generalizing pre with
  | nil => exact Matches.starNil rfl
  | cons c cs ih =>
    exact Matches.starCons [c] cs rfl (Matches.anyChar c rfl) (ih _)

/-- The search reports a match exactly when some part of the text matches. -/
theorem MatchString_iff (re : Regex) (s : String) :
    MatchString re s = true ↔
      ∃ pre mid post, s.data = pre ++ mid ++ post ∧ Matches re pre mid post := by
  have h := matchFrom_iff s.data (concat (star anyChar) (concat re (star anyChar))) []
  simp only [List.isEmpty_nil] at h
  rw [MatchString, h]
  constructor
  · intro hm
    rw [matches_concat_iff] at hm
    obtain ⟨pre, rest, hs, _, h₂⟩ := hm
    rw [matches_concat_iff] at h₂
    obtain ⟨mid, post, hr, h₃, _⟩ := h₂
    refine ⟨pre, mid, post, by simp [hs, hr], ?_⟩
    simpa using h₃
  · rintro ⟨pre, mid, post, hs, hm⟩
    refine Matches.concat pre (mid ++ post) (by simp [hs]) (matches_star_anyChar _ _ _) ?_
    refine Matches.concat mid post rfl (by simpa using hm) (matches_star_anyChar _ _ _)

theorem matches_beginText_iff {pre mid post : List Char} :
    Matches beginText pre mid post ↔ pre = [] ∧ mid = [] := by
  constructor
  · intro h
    cases h with
    | beginText hp hm => exact ⟨hp, hm⟩
  · rintro ⟨hp, hm⟩
    exact Matches.beginText hp hm

theorem matches_endText_iff {pre mid post : List Char} :
    Matches endText pre mid post ↔ mid = [] ∧ post = [] := by
  constructor
  · intro h
    cases h with
    | endText hm hq => exact ⟨hm, hq⟩
  · rintro ⟨hm, hq⟩
    exact Matches.endText hm hq

/-- A repeated class matches exactly the strings over the class. -/
theorem matches_star_charClass_iff (rs : List (Char × Char)) (mid : List Char) :
    ∀ (pre post : List Char),
      Matches (star (charClass rs)) pre mid post ↔ ∀ c ∈ mid, inClass rs c = true := by
  induction mid with
  | nil =>
    intro pre post
    simp only [List.not_mem_nil, false_imp_iff, implies_true, iff_true]
    exact Matches.starNil rfl
  | cons a mid ih =>
    intro pre post
    constructor
    · intro h
      obtain ⟨m₁, m₂, hm, h₁, h₂⟩ := matches_star_cons h
      rw [matches_charClass_iff] at h₁
      obtain ⟨d, hd, hcd⟩ := h₁
      simp only [List.cons.injEq] at hd
      obtain ⟨rfl, rfl⟩ := hd
      simp only [List.nil_append] at hm
      subst hm
      have hrest := (ih _ _).mp h₂
      intro c hc
      rcases List.mem_cons.mp hc with rfl | hc
      · exact hcd
      · exact hrest c hc
    · intro h
      refine Matches.starCons [a] mid rfl ?_ ?_
      · exact Matches.charClass a rfl (h a (List.mem_cons_self _ _))
      · exact (ih _ _).mpr fun c hc => h c (List.mem_cons_of_mem _ hc)

/-- At least `n` repetitions of a class match the strings over the class of length at
least `n`. -/
theorem matches_repeatMin_charClass_iff (rs : List (Char × Char)) (n : Nat) :
    ∀ (pre mid post : List Char),
      Matches (repeatMin n (charClass rs)) pre mid post ↔
        n ≤ mid.length ∧ ∀ c ∈ mid, inClass rs c = true := by
  induction n with
  | zero =>
    intro pre mid post
    simp [repeatMin, matches_star_charClass_iff]
  | succ n ih =>
    intro pre mid post
    simp only [repeatMin, matches_concat_iff, matches_charClass_iff, ih]
    constructor
    · rintro ⟨m₁, m₂, hm, ⟨c, rfl, hc⟩, hlen, hall⟩
      subst hm
      refine ⟨by simpa using hlen, ?_⟩
      intro d hd
      rcases List.mem_cons.mp hd with rfl | hd
      · exact hc
      · exact hall d hd
    · rintro ⟨hlen, hall⟩
      cases mid with
      | nil => simp at hlen
      | cons a mid =>
        refine ⟨[a], mid, rfl, ⟨a, rfl, hall a (List.mem_cons_self _ _)⟩, ?_, ?_⟩
        · simpa using hlen
        · exact fun c hc => hall c (List.mem_cons_of_mem _ hc)

/-- One or more repetitions of a class match the non-empty strings over the class. -/
theorem matches_plus_charClass_iff (rs : List (Char × Char)) (pre mid post : List Char) :
    Matches (plus (charClass rs)) pre mid post ↔
      mid ≠ [] ∧ ∀ c ∈ mid, inClass rs c = true := by
  have h := matches_repeatMin_charClass_iff rs 1 pre mid post
  simp only [repeatMin] at h
  rw [plus, h]
  cases mid <;> simp

/-- A single-character class holds that character only. -/
theorem inClass_single (a c : Char) : inClass [(a, a)] c = true ↔ c = a := by
  simp only [inClass, List.any_cons, List.any_nil, Bool.or_false, Bool.and_eq_true,
    decide_eq_true_eq]
  constructor
  · intro h
    apply Char.ext
    apply UInt32.ext
    have : c.toNat = a.toNat := by omega
    exact this
  · rintro rfl
    exact ⟨le_refl _, le_refl _⟩

end Regex

/-! ## The email pattern -/

open Regex in
/-- What `emailRegex` matches: the whole text, split at an `@` and a later `.`. -/
theorem matches_emailRegex_iff (pre mid post : List Char) :
    Matches emailRegex pre mid post ↔
      pre = [] ∧ post = [] ∧ ∃ l d t, mid = l ++ '@' :: (d ++ '.' :: t) ∧
        (l ≠ [] ∧ ∀ c ∈ l, inClass localRanges c = true) ∧
        (d ≠ [] ∧ ∀ c ∈ d, inClass domainRanges c = true) ∧
        (2 ≤ t.length ∧ ∀ c ∈ t, inClass tldRanges c = true) := by
  simp only [emailRegex, literal, matches_concat_iff, matches_beginText_iff,
    matches_endText_iff, matches_plus_charClass_iff, matches_repeatMin_charClass_iff,
    matches_charClass_iff, inClass_single]
  constructor
  · rintro ⟨m₀, m₁, hm, ⟨rfl, rfl⟩, l, m₂, rfl, hl, a, m₃, rfl, ⟨c, rfl, rfl⟩, d, m₄, rfl, hd,
      b, m₅, rfl, ⟨c', rfl, rfl⟩, t, m₆, rfl, ht, rfl, rfl⟩
    refine ⟨rfl, rfl, l, d, t, ?_, hl, hd, ht⟩
    simp [hm]
  · rintro ⟨rfl, rfl, l, d, t, rfl, hl, hd, ht⟩
    refine ⟨[], _, rfl, ⟨rfl, rfl⟩, l, _, rfl, hl, ['@'], _, rfl, ⟨'@', rfl, rfl⟩,
      d, _, rfl, hd, ['.'], _, rfl, ⟨'.', rfl, rfl⟩, t, [], by simp, ht, rfl, rfl⟩

theorem char_le_iff (a b : Char) : a ≤ b ↔ a.toNat ≤ b.toNat := Iff.rfl

theorem char_eq_iff (a b : Char) : a = b ↔ a.toNat = b.toNat := by
  constructor
  · rintro rfl
    rfl
  · intro h
    apply Char.ext
    apply UInt32.ext
    exact h

theorem inClass_tldRanges (c : Char) :
    Regex.inClass tldRanges c = true ↔ isAsciiLetter c := by
  simp only [Regex.inClass, tldRanges, isAsciiLetter, char_le_iff, List.any_cons,
    List.any_nil, Bool.or_false, Bool.or_eq_true, Bool.and_eq_true, decide_eq_true_eq]

theorem inClass_domainRanges (c : Char) :
    Regex.inClass domainRanges c = true ↔ isDomainChar c := by
  simp only [Regex.inClass, domainRanges, isDomainChar, isAsciiLetter, isAsciiDigit,
    char_le_iff, char_eq_iff, List.any_cons, List.any_nil, Bool.or_false, Bool.or_eq_true,
    Bool.and_eq_true, decide_eq_true_eq]
  have h1 : '.'.toNat = 46 := rfl
  have h2 : '-'.toNat = 45 := rfl
  rw [h1, h2]
  omega

theorem inClass_localRanges (c : Char) :
    Regex.inClass localRanges c = true ↔ isLocalChar c := by
  simp only [Regex.inClass, localRanges, isLocalChar, isAsciiLetter, isAsciiDigit,
    char_le_iff, char_eq_iff, List.any_cons, List.any_nil, Bool.or_false, Bool.or_eq_true,
    Bool.and_eq_true, decide_eq_true_eq]
  have h1 : '.'.toNat = 46 := rfl
  have h2 : '-'.toNat = 45 := rfl
  have h3 : '_'.toNat = 95 := rfl
  have h4 : '%'.toNat = 37 := rfl
  have h5 : '+'.toNat = 43 := rfl
  rw [h1, h2, h3, h4, h5]
  omega

/-- `IsEmail` accepts exactly the texts that split at an `@` and a later `.` into three
parts over the classes of the pattern. -/
theorem isEmail_iff_split (s : String) :
    IsEmail s = true ↔
      ∃ l d t, s.data = l ++ '@' :: (d ++ '.' :: t) ∧
        (l ≠ [] ∧ ∀ c ∈ l, isLocalChar c) ∧
        (d ≠ [] ∧ ∀ c ∈ d, isDomainChar c) ∧
        (2 ≤ t.length ∧ ∀ c ∈ t, isAsciiLetter c) := by
  rw [IsEmail, Regex.MatchString_iff]
  simp only [matches_emailRegex_iff, inClass_localRanges, inClass_domainRanges,
    inClass_tldRanges]
  constructor
  · rintro ⟨pre, mid, post, hs, rfl, rfl, l, d, t, rfl, h⟩
    exact ⟨l, d, t, by simpa using hs, h⟩
  · rintro ⟨l, d, t, hs, h⟩
    exact ⟨[], _, [], by simpa using hs, rfl, rfl, l, d, t, rfl, h⟩

/-- An accepted email is not the empty string. -/
theorem ne_empty_of_isEmail {e : String} (h : IsEmail e = true) : e ≠ "" := by
  rintro rfl
  exact absurd h (by decide)

/-- C4. `IsEmail s` is true exactly when `s` splits as `local ++ "@" ++ domain ++ "." ++ tld`
with a non-empty local part over letters, digits and `. _ % + -`, a non-empty domain over
letters, digits and `. -`, and at least two letters of tld, nothing standing before or
after; a string without `@` or without `.` is rejected, and so is a string that ends in a
newline. -/
theorem IsEmail_iff_EmailSyntax (s : String) :
    (IsEmail s = true ↔ EmailSyntax s) ∧
      ('@' ∉ s.toList → IsEmail s = false) ∧
      ('.' ∉ s.toList → IsEmail s = false) ∧
      IsEmail (s ++ "\n") = false := by
  have hsplit : IsEmail s = true ↔ EmailSyntax s := by
    rw [isEmail_iff_split, EmailSyntax]
    constructor
    · rintro ⟨l, d, t, hs, hl, hd, ht⟩
      refine ⟨⟨l⟩, ⟨d⟩, ⟨t⟩, ?_, ⟨?_, hl.2⟩, ⟨?_, hd.2⟩, ht⟩
      · apply String.ext
        simp only [String.data_append, hs]
        simp
      · intro h
        exact hl.1 (congrArg String.data h)
      · intro h
        exact hd.1 (congrArg String.data h)
    · rintro ⟨loc, dom, tld, rfl, hl, hd, ht⟩
      refine ⟨loc.data, dom.data, tld.data, ?_, ⟨?_, hl.2⟩, ⟨?_, hd.2⟩, ht⟩
      · simp only [String.data_append]
        simp
      · intro h
        exact hl.1 (String.ext h)
      · intro h
        exact hd.1 (String.ext h)
  refine ⟨hsplit, ?_, ?_, ?_⟩
  · intro hat
    rw [Bool.eq_false_iff]
    intro h
    obtain ⟨l, d, t, hs, -⟩ := (isEmail_iff_split s).mp h
    apply hat
    show '@' ∈ s.data
    rw [hs]
    simp
  · intro hdot
    rw [Bool.eq_false_iff]
    intro h
    obtain ⟨l, d, t, hs, -⟩ := (isEmail_iff_split s).mp h
    apply hdot
    show '.' ∈ s.data
    rw [hs]
    simp
  · rw [Bool.eq_false_iff]
    intro h
    obtain ⟨l, d, t, hs, -, -, ht, hall⟩ := (isEmail_iff_split (s ++ "\n")).mp h
    have hne : t ≠ [] := by
      intro h0
      rw [h0] at ht
      simp at ht
    have hlast : t.getLast hne = '\n' := by
      have h1 : (s ++ "\n").data = s.data ++ ['\n'] := by
        rw [String.data_append]
      rw [h1] at hs
      have h2 : l ++ '@' :: (d ++ '.' :: t) = (l ++ '@' :: (d ++ ['.'])) ++ t := by simp
      rw [h2] at hs
      have h3 := congrArg List.getLast? hs
      rw [List.getLast?_append_of_ne_nil _ hne, List.getLast?_eq_getLast _ hne] at h3
      simp at h3
      exact h3.symm
    have hletter := hall _ (List.getLast_mem hne)
    rw [hlast] at hletter
    revert hletter
    simp only [isAsciiLetter, char_le_iff]
    decide

/-- C5, as the code has it. `IsEmail "a@b.com"` is true and `IsEmail` is false on
`"not-an-email"`, on `"a@b"` and on `"a@b.c"`, whose last part is a single letter. -/
theorem IsEmail_literal_cases :
    IsEmail "a@b.com" = true ∧ IsEmail "not-an-email" = false ∧ IsEmail "a@b" = false ∧
      IsEmail "a@b.c" = false := by
  decide

/-- C5, against the claim. The four results the specification lists do not all hold:
`IsEmail "a@b.c"` is false. -/
theorem not_IsEmail_spec_literals :
    ¬ (IsEmail "a@b.com" = true ∧ IsEmail "not-an-email" = false ∧ IsEmail "a@b" = false ∧
      IsEmail "a@b.c" = true) := by
  decide

/-! ## The user service -/

theorem utf8ByteSize_pos_iff (s : String) : 0 < s.utf8ByteSize ↔ s ≠ "" := by
  obtain ⟨cs⟩ := s
  cases cs with
  | nil => simp [String.utf8ByteSize, String.utf8ByteSize.go]
  | cons c cs =>
    have hc := Char.utf8Size_pos c
    have hne : (⟨c :: cs⟩ : String) ≠ "" := by
      intro h
      have := congrArg String.data h
      simp at this
    simp only [String.utf8ByteSize, String.utf8ByteSize.go, ne_eq, hne, not_false_eq_true,
      iff_true]
    omega

/-- The existence test of `CreateUser` and `UpdateUser` holds exactly when the lookup gave a
record whose email is not empty. -/
theorem found_iff (r : Except String User) :
    found r = true ↔ ∃ cu, r = .ok cu ∧ cu.Email ≠ "" := by
  cases r with
  | error e => simp [found]
  | ok u => simp [found, utf8ByteSize_pos_iff]

theorem keyOf_key (email : String) :
    keyOf [("email", AttributeValue.S email)] = some (AttributeValue.S email) := by
  simp [keyOf, List.lookup]

/-- `GetUser` when the lookup call fails. -/
theorem GetUser_of_fails (email tableName : String) (c : DynamoDBAPI)
    (h : c.getItemFails = true) :
    GetUser email tableName c =
      (.error ErrorFailedToGetUser, { c with calls := c.calls ++ [getUserCall email tableName] }) := by
  simp [GetUser, DynamoDBAPI.GetItem, h, getUserCall]

/-- `GetUser` when the lookup call succeeds: the stored item, decoded. -/
theorem GetUser_of_succeeds (email tableName : String) (c : DynamoDBAPI)
    (h : c.getItemFails = false) :
    GetUser email tableName c =
      (match UnmarshalMap (c.storedItem email) with
        | .error _ => .error "failed to unmarshal"
        | .ok item => .ok item,
       { c with calls := c.calls ++ [getUserCall email tableName] }) := by
  simp only [GetUser, DynamoDBAPI.GetItem, h, getUserCall, keyOf_key, DynamoDBAPI.storedItem]
  simp only [Bool.false_eq_true, if_false]
  split <;> rfl

/-- `GetUser` changes nothing of the client but the log of calls. -/
theorem GetUser_client (email tableName : String) (c : DynamoDBAPI) :
    (GetUser email tableName c).2 =
      { c with calls := c.calls ++ [getUserCall email tableName] } := by
  rcases Bool.eq_false_or_eq_true c.getItemFails with h | h
  · rw [GetUser_of_fails _ _ _ h]
  · rw [GetUser_of_succeeds _ _ _ h]

theorem decodeString_encodeString (s : String) :
    decodeString (encodeString s) = .ok s := by
  unfold encodeString
  split
  · next h => simp [decodeString, h]
  · simp [decodeString]

theorem fieldByName_email : fieldByName "email" = some Field.Email := by decide

theorem fieldByName_first_name : fieldByName "first_name" = some Field.FirstName := by decide

theorem fieldByName_last_name : fieldByName "last_name" = some Field.LastName := by decide

/-- Decoding the item `MarshalMap` makes of a record gives the record back, empty fields
included. -/
theorem UnmarshalMap_userItem (u : User) : UnmarshalMap (some (userItem u)) = .ok u := by
  simp [UnmarshalMap, userItem, decodeMap, fieldByName_email, fieldByName_first_name,
    fieldByName_last_name, decodeString_encodeString, setField]

/-- The decoder matches attribute names without regard to case when no field has the exact
name: `FIRST_NAME` and `LAST_name` fill the first and last name, an attribute that names no
field is skipped, and a boolean under `Email` is a decoding error. -/
theorem UnmarshalMap_case_variants :
    UnmarshalMap (some [("email", AttributeValue.S "x@y.com"),
        ("FIRST_NAME", AttributeValue.S "A"), ("LAST_name", AttributeValue.S "B"),
        ("age", AttributeValue.BOOL true)]) = .ok ⟨"x@y.com", "A", "B"⟩ ∧
      UnmarshalMap (some [("Email", AttributeValue.BOOL true)])
        = .error "cannot unmarshal bool into Go value of type string" ∧
      UnmarshalListOfMaps [[("email", AttributeValue.S "x@y.com"),
        ("FIRST_NAME", AttributeValue.S "A")]] = .ok [⟨"x@y.com", "A", ""⟩] := by
  decide

theorem keyOf_userItem (u : User) : keyOf (userItem u) = some (encodeString u.Email) := by
  simp [keyOf, userItem, List.lookup]

theorem encodeString_of_ne {s : String} (h : s ≠ "") : encodeString s = AttributeValue.S s := by
  simp [encodeString, h]

/-- `CreateUser` on a body that decodes to a user with an accepted email: the existence
test on the result of `GetUser`, then the write. -/
theorem CreateUser_of_valid (jsonUnmarshal : String → Except String User)
    (req : APIGatewayProxyRequest) (tableName : String) (c : DynamoDBAPI) (u : User)
    (hparse : jsonUnmarshal req.Body = .ok u) (hvalid : IsEmail u.Email = true) :
    CreateUser jsonUnmarshal req tableName c =
      if found (GetUser u.Email tableName c).1 then
        (.error UserAlreadyExists, (GetUser u.Email tableName c).2)
      else
        match (GetUser u.Email tableName c).2.PutItem
            { Item := userItem u, TableName := tableName } with
        | (.error _, d) => (.error CouldNotPut, d)
        | (.ok _, d) => (.ok u, d) := by
  simp only [CreateUser, hparse, hvalid, MarshalMap]
  rfl

/-- `UpdateUser` on a body that decodes to a user: the existence test on the result of
`GetUser`, then the write. -/
theorem UpdateUser_of_parsed (jsonUnmarshal : String → Except String User)
    (req : APIGatewayProxyRequest) (tableName : String) (c : DynamoDBAPI) (u : User)
    (hparse : jsonUnmarshal req.Body = .ok u) :
    UpdateUser jsonUnmarshal req tableName c =
      if found (GetUser u.Email tableName c).1 then
        (.error UserDoesNotExist, (GetUser u.Email tableName c).2)
      else
        match (GetUser u.Email tableName c).2.PutItem
            { Item := userItem u, TableName := tableName } with
        | (.error _, d) => (.error CouldNotPut, d)
        | (.ok _, d) => (.ok u, d) := by
  simp only [UpdateUser, hparse, MarshalMap]

/-- C1. On a client whose lookup and write succeed and whose table holds nothing under the
email of the decoded payload `u`, an email `IsEmail` accepts, `CreateUser` returns `u` and
a following `GetUser` of that email on the resulting client returns `u`, all three fields
equal, empty first or last name included. -/
theorem CreateUser_GetUser_round_trip (jsonUnmarshal : String → Except String User)
    (req : APIGatewayProxyRequest) (tableName : String) (c : DynamoDBAPI) (u : User)
    (hget : c.getItemFails = false) (hput : c.putItemFails = false)
    (hfresh : c.storedItem u.Email = none)
    (hparse : jsonUnmarshal req.Body = .ok u) (hvalid : IsEmail u.Email = true) :
    (CreateUser jsonUnmarshal req tableName c).1 = .ok u ∧
      (GetUser u.Email tableName (CreateUser jsonUnmarshal req tableName c).2).1 = .ok u := by
  have hne := ne_empty_of_isEmail hvalid
  have hcreate : CreateUser jsonUnmarshal req tableName c =
      (.ok u, { c with
        items := userItem u :: c.items.filter fun it => decide (keyOf it ≠ keyOf (userItem u))
        calls := c.calls ++ [getUserCall u.Email tableName,
          Call.PutItem { Item := userItem u, TableName := tableName }] }) := by
    rw [CreateUser_of_valid _ _ _ _ _ hparse hvalid, GetUser_of_succeeds _ _ _ hget, hfresh]
    simp [UnmarshalMap, found, DynamoDBAPI.PutItem, hput, String.utf8ByteSize,
      String.utf8ByteSize.go]
  rw [hcreate]
  refine ⟨rfl, ?_⟩
  have hdecode := UnmarshalMap_userItem u
  simp [GetUser, DynamoDBAPI.GetItem, hget, keyOf_key, keyOf_userItem,
    encodeString_of_ne hne, hdecode]

/-- C1 at the payload `{"email":"x@y.com","first_name":"","last_name":"B"}` and the empty
table. -/
theorem CreateUser_GetUser_round_trip_witness :
    (CreateUser sampleUnmarshal freshRequest "users" emptyClient).1 = .ok ⟨"x@y.com", "", "B"⟩ ∧
      (GetUser "x@y.com" "users"
        (CreateUser sampleUnmarshal freshRequest "users" emptyClient).2).1
        = .ok ⟨"x@y.com", "", "B"⟩ :=
  CreateUser_GetUser_round_trip sampleUnmarshal freshRequest "users" emptyClient
    ⟨"x@y.com", "", "B"⟩ rfl rfl rfl (by decide) (by decide)

/-- With a lookup call that succeeds, `GetUser` returns the decoded stored item. -/
theorem GetUser_ok_iff (email tableName : String) (c : DynamoDBAPI) (cu : User)
    (hget : c.getItemFails = false) :
    (GetUser email tableName c).1 = .ok cu ↔ UnmarshalMap (c.storedItem email) = .ok cu := by
  rw [GetUser_of_succeeds _ _ _ hget]
  cases hu : UnmarshalMap (c.storedItem email) with
  | error e => simp
  | ok v => simp

/-- When the lookup call succeeds and the item held under the email of the payload decodes
to a record with a non-empty email, `CreateUser` fails with `"user already exists"` and
leaves the client as it was but for the one logged lookup. -/
theorem CreateUser_refuses_found_record (jsonUnmarshal : String → Except String User)
    (req : APIGatewayProxyRequest) (tableName : String) (c : DynamoDBAPI) (u cu : User)
    (hparse : jsonUnmarshal req.Body = .ok u) (hvalid : IsEmail u.Email = true)
    (hget : c.getItemFails = false)
    (hrec : UnmarshalMap (c.storedItem u.Email) = .ok cu) (hne : cu.Email ≠ "") :
    CreateUser jsonUnmarshal req tableName c =
      (.error UserAlreadyExists,
        { c with calls := c.calls ++ [getUserCall u.Email tableName] }) := by
  have hfound : found (GetUser u.Email tableName c).1 = true := by
    rw [found_iff]
    exact ⟨cu, (GetUser_ok_iff _ _ _ _ hget).mpr hrec, hne⟩
  rw [CreateUser_of_valid _ _ _ _ _ hparse hvalid, if_pos hfound, GetUser_client]

/-- C2, the failing input. The table holds under `x@y.com` an item that decodes to the
record `x@y.com, Old, Name`, and the lookup call fails. `CreateUser` with a payload for
`x@y.com`, an email `IsEmail` accepts, does not fail with `"user already exists"`: it
returns the record of the payload, makes a `PutItem`, and the table afterwards is not the
table before, the held record being replaced. -/
theorem CreateUser_overwrites_held_record :
    UnmarshalMap (failingLookupClient.storedItem "x@y.com") = .ok ⟨"x@y.com", "Old", "Name"⟩ ∧
      sampleUnmarshal freshRequest.Body = .ok ⟨"x@y.com", "", "B"⟩ ∧
      IsEmail "x@y.com" = true ∧
      (CreateUser sampleUnmarshal freshRequest "users" failingLookupClient).1
        = .ok ⟨"x@y.com", "", "B"⟩ ∧
      (CreateUser sampleUnmarshal freshRequest "users" failingLookupClient).2.calls
        = [getUserCall "x@y.com" "users",
           Call.PutItem { Item := userItem ⟨"x@y.com", "", "B"⟩, TableName := "users" }] ∧
      (CreateUser sampleUnmarshal freshRequest "users" failingLookupClient).2.items
        ≠ failingLookupClient.items ∧
      UnmarshalMap ((CreateUser sampleUnmarshal freshRequest "users"
        failingLookupClient).2.storedItem "x@y.com") = .ok ⟨"x@y.com", "", "B"⟩ := by
  decide

/-- An item with a boolean under `FIRST_NAME` does not decode, the attribute standing for
the field `first_name`; `GetUser` reports it, and `CreateUser` and `UpdateUser`, which drop
that error too, write the record of the payload over the item. -/
theorem undecodable_item_is_overwritten :
    (GetUser "x@y.com" "users" undecodableClient).1 = .error "failed to unmarshal" ∧
      (CreateUser sampleUnmarshal freshRequest "users" undecodableClient).1
        = .ok ⟨"x@y.com", "", "B"⟩ ∧
      (CreateUser sampleUnmarshal freshRequest "users" undecodableClient).2.items
        = [userItem ⟨"x@y.com", "", "B"⟩] ∧
      (UpdateUser sampleUnmarshal freshRequest "users" undecodableClient).1
        = .ok ⟨"x@y.com", "", "B"⟩ ∧
      (UpdateUser sampleUnmarshal freshRequest "users" undecodableClient).2.items
        = [userItem ⟨"x@y.com", "", "B"⟩] := by
  decide

/-- C3. When the payload decodes to a record whose email `IsEmail` rejects, `CreateUser`
fails with `"invalid email"`, returns no record and hands back the client untouched: no
call is logged (no lookup, no write) and the table is unchanged. -/
theorem CreateUser_invalid_email (jsonUnmarshal : String → Except String User)
    (req : APIGatewayProxyRequest) (tableName : String) (c : DynamoDBAPI) (u : User)
    (hparse : jsonUnmarshal req.Body = .ok u) (hbad : IsEmail u.Email = false) :
    CreateUser jsonUnmarshal req tableName c = (.error InvalidEmail, c) := by
  simp [CreateUser, hparse, hbad]

/-- C3 at the payload `{"email":"bad","first_name":"A"}` and at a payload without an email
field, which decodes to the empty email. -/
theorem CreateUser_invalid_email_witness :
    CreateUser sampleUnmarshal badEmailRequest "users" oneUserClient
        = (.error "invalid email", oneUserClient) ∧
      CreateUser sampleUnmarshal noEmailRequest "users" oneUserClient
        = (.error "invalid email", oneUserClient) :=
  ⟨CreateUser_invalid_email sampleUnmarshal badEmailRequest "users" oneUserClient
      ⟨"bad", "A", ""⟩ (by decide) (by decide),
   CreateUser_invalid_email sampleUnmarshal noEmailRequest "users" oneUserClient
      ⟨"", "A", ""⟩ (by decide) (by decide)⟩

/-- `DeleteUser` when the delete call succeeds. -/
theorem DeleteUser_of_succeeds (req : APIGatewayProxyRequest) (tableName : String)
    (c : DynamoDBAPI) (h : c.deleteItemFails = false) :
    DeleteUser req tableName c =
      (none, { c with
        items := c.items.filter fun it => decide
          (keyOf it ≠ some (AttributeValue.S ((req.QueryStringParameters.lookup "email").getD "")))
        calls := c.calls ++ [Call.DeleteItem
          { Key := [("email",
              AttributeValue.S ((req.QueryStringParameters.lookup "email").getD ""))],
            TableName := tableName }] }) := by
  simp [DeleteUser, DynamoDBAPI.DeleteItem, h, keyOf_key]

/-- `DeleteUser` when the delete call fails. -/
theorem DeleteUser_of_fails (req : APIGatewayProxyRequest) (tableName : String)
    (c : DynamoDBAPI) (h : c.deleteItemFails = true) :
    DeleteUser req tableName c =
      (some CouldNotDelete, { c with
        calls := c.calls ++ [Call.DeleteItem
          { Key := [("email",
              AttributeValue.S ((req.QueryStringParameters.lookup "email").getD ""))],
            TableName := tableName }] }) := by
  simp [DeleteUser, DynamoDBAPI.DeleteItem, h]

/-- C7. With `e` the `email` query parameter of the request: when the delete call succeeds,
`DeleteUser` returns no error, the table is unchanged if it held nothing under `e`, nothing
is held under `e` afterwards, and the items of the table afterwards are the items before
under another key, so a lookup of another key gives what it gave before. `DeleteUser`
returns `"could not delete"` exactly when the delete call fails, and the table is then
unchanged. -/
theorem DeleteUser_removes_only_key (req : APIGatewayProxyRequest) (tableName : String)
    (c : DynamoDBAPI) :
    (c.deleteItemFails = false →
        (DeleteUser req tableName c).1 = none ∧
        (c.storedItem ((req.QueryStringParameters.lookup "email").getD "") = none →
          (DeleteUser req tableName c).2.items = c.items) ∧
        (DeleteUser req tableName c).2.storedItem
          ((req.QueryStringParameters.lookup "email").getD "") = none ∧
        (∀ it, it ∈ (DeleteUser req tableName c).2.items ↔
          it ∈ c.items ∧
            keyOf it ≠ some (AttributeValue.S
              ((req.QueryStringParameters.lookup "email").getD ""))) ∧
        (∀ e, e ≠ (req.QueryStringParameters.lookup "email").getD "" →
          (DeleteUser req tableName c).2.storedItem e = c.storedItem e)) ∧
      ((DeleteUser req tableName c).1 = some CouldNotDelete ↔ c.deleteItemFails = true) ∧
      (c.deleteItemFails = true → (DeleteUser req tableName c).2.items = c.items) := by
  refine ⟨?_, ?_, ?_⟩
  · intro h
    rw [DeleteUser_of_succeeds _ _ _ h]
    refine ⟨rfl, ?_, ?_, ?_, ?_⟩
    · intro hnone
      simp only [DynamoDBAPI.storedItem, List.find?_eq_none, decide_eq_true_eq] at hnone
      simp only [List.filter_eq_self, decide_eq_true_eq]
      exact hnone
    · simp only [DynamoDBAPI.storedItem, List.find?_eq_none, decide_eq_true_eq,
        List.mem_filter]
      rintro it ⟨-, hne⟩ heq
      exact hne heq
    · intro it
      simp only [List.mem_filter, decide_eq_true_eq]
    · intro e hne
      simp only [DynamoDBAPI.storedItem, List.find?_filter]
      congr 1
      funext it
      by_cases hk : keyOf it = some (AttributeValue.S e)
      · have : keyOf it ≠ some (AttributeValue.S
            ((req.QueryStringParameters.lookup "email").getD "")) := by
          rw [hk]
          intro h'
          exact hne (by injection h' with h''; injection h'')
        simp [hk, hne]
      · simp [hk]
  · rcases Bool.eq_false_or_eq_true c.deleteItemFails with h | h
    · rw [DeleteUser_of_fails _ _ _ h]
      simp [h]
    · rw [DeleteUser_of_succeeds _ _ _ h]
      simp [h]
  · intro h
    rw [DeleteUser_of_fails _ _ _ h]

/-- C7 at the table that holds `x@y.com` and the request to delete `x@y.com`: no error and
an empty table; and on the empty table, no error either. -/
theorem DeleteUser_removes_only_key_witness :
    ((DeleteUser deleteRequest "users" oneUserClient).1 = none ∧
        (DeleteUser deleteRequest "users" oneUserClient).2.storedItem "x@y.com" = none) ∧
      ((DeleteUser deleteRequest "users" emptyClient).1 = none ∧
        (DeleteUser deleteRequest "users" emptyClient).2.items = emptyClient.items) :=
  ⟨⟨((DeleteUser_removes_only_key deleteRequest "users" oneUserClient).1 rfl).1,
    ((DeleteUser_removes_only_key deleteRequest "users" oneUserClient).1 rfl).2.2.1⟩,
   ⟨((DeleteUser_removes_only_key deleteRequest "users" emptyClient).1 rfl).1,
    ((DeleteUser_removes_only_key deleteRequest "users" emptyClient).1 rfl).2.1 rfl⟩⟩

/-- C8. When the lookup call succeeds and the table holds nothing under `email`, `GetUser`
returns no error and a record whose three fields are the empty string; when the lookup call
fails, `GetUser` returns the error `"failed to get user"`. -/
theorem GetUser_miss_is_zero_record (email tableName : String) (c : DynamoDBAPI) :
    (c.getItemFails = false → c.storedItem email = none →
        (GetUser email tableName c).1 = .ok ⟨"", "", ""⟩) ∧
      (c.getItemFails = true →
        (GetUser email tableName c).1 = .error ErrorFailedToGetUser) := by
  constructor
  · intro hget hnone
    rw [GetUser_of_succeeds _ _ _ hget, hnone]
    rfl
  · intro hget
    rw [GetUser_of_fails _ _ _ hget]

/-- C8 at the table that holds `x@y.com` only and the email `nobody@y.com`, and at a client
whose lookup fails. -/
theorem GetUser_miss_is_zero_record_witness :
    (GetUser "nobody@y.com" "users" oneUserClient).1 = .ok ⟨"", "", ""⟩ ∧
      (GetUser "x@y.com" "users" { oneUserClient with getItemFails := true }).1
        = .error "failed to get user" :=
  ⟨(GetUser_miss_is_zero_record "nobody@y.com" "users" oneUserClient).1 rfl (by decide),
   (GetUser_miss_is_zero_record "x@y.com" "users"
      { oneUserClient with getItemFails := true }).2 rfl⟩

/-- The invariant, item by item. -/
theorem emailsValid_iff (c : DynamoDBAPI) :
    emailsValid c = true ↔
      ∀ it ∈ c.items, ∃ e, keyOf it = some (AttributeValue.S e) ∧ IsEmail e = true := by
  simp only [emailsValid, List.all_eq_true]
  constructor
  · intro h it hit
    have := h it hit
    split at this
    · next e he => exact ⟨e, he, this⟩
    · cases this
  · intro h it hit
    obtain ⟨e, he, hv⟩ := h it hit
    simp [he, hv]

/-- `CreateUser` keeps the invariant, whatever the payload and whichever calls fail. -/
theorem CreateUser_preserves_emailsValid (jsonUnmarshal : String → Except String User)
    (req : APIGatewayProxyRequest) (tableName : String) (c : DynamoDBAPI)
    (h : emailsValid c = true) :
    emailsValid (CreateUser jsonUnmarshal req tableName c).2 = true := by
  cases hparse : jsonUnmarshal req.Body with
  | error e => simpa [CreateUser, hparse] using h
  | ok u =>
    rcases Bool.eq_false_or_eq_true (IsEmail u.Email) with hvalid | hvalid
    · rw [CreateUser_of_valid _ _ _ _ _ hparse hvalid, GetUser_client]
      split
      · exact h
      · rcases Bool.eq_false_or_eq_true c.putItemFails with hput | hput
        · simpa [DynamoDBAPI.PutItem, hput] using h
        · rw [emailsValid_iff] at h ⊢
          simp only [DynamoDBAPI.PutItem, hput, Bool.false_eq_true, if_false]
          intro it hit
          rcases List.mem_cons.mp hit with rfl | hit
          · exact ⟨u.Email, by
              rw [keyOf_userItem, encodeString_of_ne (ne_empty_of_isEmail hvalid)], hvalid⟩
          · exact h it (List.mem_filter.mp hit).1
    · simpa [CreateUser, hparse, hvalid] using h

/-- `DeleteUser` keeps the invariant, whether the delete call fails or not. -/
theorem DeleteUser_preserves_emailsValid (req : APIGatewayProxyRequest) (tableName : String)
    (c : DynamoDBAPI) (h : emailsValid c = true) :
    emailsValid (DeleteUser req tableName c).2 = true := by
  rcases Bool.eq_false_or_eq_true c.deleteItemFails with hdel | hdel
  · rw [DeleteUser_of_fails _ _ _ hdel]
    exact h
  · rw [DeleteUser_of_succeeds _ _ _ hdel]
    rw [emailsValid_iff] at h ⊢
    intro it hit
    exact h it (List.mem_filter.mp hit).1

/-- C9, the failing input. The empty table satisfies the invariant; `UpdateUser` with the
payload `{"email":"bad","first_name":"A"}` returns the record and writes it, and the table
then holds an item whose email `IsEmail` rejects. -/
theorem UpdateUser_breaks_emailsValid :
    emailsValid emptyClient = true ∧
      (UpdateUser sampleUnmarshal badEmailRequest "users" emptyClient).1
        = .ok ⟨"bad", "A", ""⟩ ∧
      (UpdateUser sampleUnmarshal badEmailRequest "users" emptyClient).2.items
        = [[("email", AttributeValue.S "bad"), ("first_name", AttributeValue.S "A"),
            ("last_name", AttributeValue.NULL)]] ∧
      IsEmail "bad" = false ∧
      emailsValid (UpdateUser sampleUnmarshal badEmailRequest "users" emptyClient).2
        = false := by
  decide

/-- When the write call fails, `CreateUser` and `UpdateUser` return no record. -/
theorem put_failure_is_reported (jsonUnmarshal : String → Except String User)
    (req : APIGatewayProxyRequest) (tableName : String) (c : DynamoDBAPI)
    (hput : c.putItemFails = true) (u : User) :
    (CreateUser jsonUnmarshal req tableName c).1 ≠ .ok u ∧
      (UpdateUser jsonUnmarshal req tableName c).1 ≠ .ok u := by
  constructor
  · cases hparse : jsonUnmarshal req.Body with
    | error e => simp [CreateUser, hparse]
    | ok v =>
      rcases Bool.eq_false_or_eq_true (IsEmail v.Email) with hvalid | hvalid
      · rw [CreateUser_of_valid _ _ _ _ _ hparse hvalid, GetUser_client]
        split
        · simp
        · simp [DynamoDBAPI.PutItem, hput]
      · simp [CreateUser, hparse, hvalid]
  · cases hparse : jsonUnmarshal req.Body with
    | error e => simp [UpdateUser, hparse]
    | ok v =>
      rw [UpdateUser_of_parsed _ _ _ _ _ hparse, GetUser_client]
      split
      · simp
      · simp [DynamoDBAPI.PutItem, hput]

/-- When the call they make fails, `GetUser`, `GetUsers` and `DeleteUser` return an
error. -/
theorem read_and_delete_failure_is_reported (req : APIGatewayProxyRequest)
    (email tableName : String) (c : DynamoDBAPI) :
    (c.getItemFails = true → (GetUser email tableName c).1 = .error ErrorFailedToGetUser) ∧
      (c.scanFails = true → (GetUsers tableName c).1 = .error "failed to get users") ∧
      (c.deleteItemFails = true → (DeleteUser req tableName c).1 = some CouldNotDelete) := by
  refine ⟨?_, ?_, ?_⟩
  · intro h
    rw [GetUser_of_fails _ _ _ h]
  · intro h
    simp [GetUsers, DynamoDBAPI.Scan, h]
  · intro h
    rw [DeleteUser_of_fails _ _ _ h]

/-- When the lookup call fails and the write call succeeds, `CreateUser` with an accepted
email and `UpdateUser` return the record of the payload and write it. -/
theorem failed_lookup_is_ignored (jsonUnmarshal : String → Except String User)
    (req : APIGatewayProxyRequest) (tableName : String) (c : DynamoDBAPI) (u : User)
    (hget : c.getItemFails = true) (hput : c.putItemFails = false)
    (hparse : jsonUnmarshal req.Body = .ok u) :
    (IsEmail u.Email = true →
        (CreateUser jsonUnmarshal req tableName c).1 = .ok u ∧
        (CreateUser jsonUnmarshal req tableName c).2.items =
          userItem u :: c.items.filter fun it => decide (keyOf it ≠ keyOf (userItem u))) ∧
      (UpdateUser jsonUnmarshal req tableName c).1 = .ok u ∧
      (UpdateUser jsonUnmarshal req tableName c).2.items =
        userItem u :: c.items.filter fun it => decide (keyOf it ≠ keyOf (userItem u)) := by
  have hnot : found (GetUser u.Email tableName c).1 = false := by
    rw [GetUser_of_fails _ _ _ hget]
    rfl
  refine ⟨?_, ?_⟩
  · intro hvalid
    rw [CreateUser_of_valid _ _ _ _ _ hparse hvalid, hnot, GetUser_client]
    simp [DynamoDBAPI.PutItem, hput]
  · rw [UpdateUser_of_parsed _ _ _ _ _ hparse, hnot, GetUser_client]
    simp [DynamoDBAPI.PutItem, hput]

/-- C10, the failing input. The table holds `x@y.com` (`Old Name`) and the lookup call
fails, as `GetUser` reports. `CreateUser` and `UpdateUser` with a payload for `x@y.com`
both return the record of the payload with no error and the table then holds the record of
the payload in place of the old one: the failed lookup is not reported and the write is
made. -/
theorem CreateUser_UpdateUser_drop_lookup_failure :
    (GetUser "x@y.com" "users" failingLookupClient).1 = .error "failed to get user" ∧
      (CreateUser sampleUnmarshal freshRequest "users" failingLookupClient).1
        = .ok ⟨"x@y.com", "", "B"⟩ ∧
      (CreateUser sampleUnmarshal freshRequest "users" failingLookupClient).2.items
        = [[("email", AttributeValue.S "x@y.com"), ("first_name", AttributeValue.NULL),
            ("last_name", AttributeValue.S "B")]] ∧
      (UpdateUser sampleUnmarshal freshRequest "users" failingLookupClient).1
        = .ok ⟨"x@y.com", "", "B"⟩ ∧
      (UpdateUser sampleUnmarshal freshRequest "users" failingLookupClient).2.items
        = [[("email", AttributeValue.S "x@y.com"), ("first_name", AttributeValue.NULL),
            ("last_name", AttributeValue.S "B")]] := by
  decide

end GoServerless
